import Mathlib

/-!
Verification of the subtitle ingestion / search / replay-reference core.

Shallow embedding conventions:
* Python strings are `Str := List Char`; SQLite TEXT comparison (BINARY
  collation) is the lexicographic order on `List Char`.
* Python floats are modelled as `ℚ` (all constants appearing in the code are
  exactly representable, so no rounding behaviour is lost).
* `re.sub` / `re.search` calls are embedded as structural left-to-right
  character scans implementing exactly the concrete patterns appearing in the
  source.
* The SQLite table is a `List Record` in insertion order; `INSERT OR IGNORE`
  under the `UNIQUE(video_id, start_time, japanese_text)` constraint is
  `insertIfAbsent`; `SELECT ... ORDER BY ... LIMIT n` is
  filter + sort + take.
* External effects (the `yt-dlp` subprocess and the downloaded subtitle
  files) are an explicit environment `Env`; exceptions are `Except`.
-/

namespace JpSub

abbrev Str := List Char

/-! ### playword.py, `create_timestamp_url` (replay reference builder) -/

/-- `'t=' in video_url`: the two-character substring check used by
`create_timestamp_url` (playword.py line 103). -/
def startsTEq : Str → Bool
  | c1 :: c2 :: _ => c1 == 't' && c2 == '='
  | _ => false

def hasTEq : Str → Bool
  | [] => false
  | c :: rest => startsTEq (c :: rest) || hasTEq rest

/-- `'#t=' in video_url` (playword.py line 103). -/
def startsHashTEq : Str → Bool
  | c1 :: c2 :: c3 :: _ => c1 == '#' && c2 == 't' && c3 == '='
  | _ => false

def hasHashTEq : Str → Bool
  | [] => false
  | c :: rest => startsHashTEq (c :: rest) || hasHashTEq rest

/-- `t=` followed by at least one digit starts here: the body of a
`[&#]t=\d+` match after its lead-in character. -/
def tMatchAfter : Str → Bool
  | c1 :: c2 :: c3 :: _ => c1 == 't' && c2 == '=' && c3.isDigit
  | _ => false

/-- `start=` followed by at least one digit starts here. -/
def sMatchAfter : Str → Bool
  | c1 :: c2 :: c3 :: c4 :: c5 :: c6 :: c7 :: _ =>
    c1 == 's' && c2 == 't' && c3 == 'a' && c4 == 'r' && c5 == 't' &&
      c6 == '=' && c7.isDigit
  | _ => false

/-- `re.sub(r'[&#]t=\d+', '', url)` (playword.py line 105): left-to-right
scan; a match consumes `&`/`#`, `t=`, and a maximal non-empty digit run.
The boolean state is true while the scan is inside the digit run of a match
(those digits are consumed, mirroring the greedy `\d+`). -/
def stripTGo : Bool → Str → Str
  | _, [] => []
  | sw, c :: c1 :: c2 :: c3 :: rest2 =>
    if sw && c.isDigit then stripTGo true (c1 :: c2 :: c3 :: rest2)
    else if (c == '&' || c == '#') && tMatchAfter (c1 :: c2 :: c3 :: rest2) then
      stripTGo true rest2
    else c :: stripTGo false (c1 :: c2 :: c3 :: rest2)
  | sw, c :: rest =>
    if sw && c.isDigit then stripTGo true rest
    else c :: stripTGo false rest

/-- `re.sub(r'[&#]start=\d+', '', url)` (playword.py line 106). -/
def stripStartGo : Bool → Str → Str
  | _, [] => []
  | sw, c :: c1 :: c2 :: c3 :: c4 :: c5 :: c6 :: c7 :: rest2 =>
    if sw && c.isDigit then
      stripStartGo true (c1 :: c2 :: c3 :: c4 :: c5 :: c6 :: c7 :: rest2)
    else if (c == '&' || c == '#') &&
        sMatchAfter (c1 :: c2 :: c3 :: c4 :: c5 :: c6 :: c7 :: rest2) then
      stripStartGo true rest2
    else c :: stripStartGo false (c1 :: c2 :: c3 :: c4 :: c5 :: c6 :: c7 :: rest2)
  | sw, c :: rest =>
    if sw && c.isDigit then stripStartGo true rest
    else c :: stripStartGo false rest

def digitChar (n : ℕ) : Char :=
  if n = 0 then '0' else if n = 1 then '1' else if n = 2 then '2'
  else if n = 3 then '3' else if n = 4 then '4' else if n = 5 then '5'
  else if n = 6 then '6' else if n = 7 then '7' else if n = 8 then '8' else '9'

/-- Decimal digits of a natural number, fuel-based so that it is structural
(the fuel `n + 1` always suffices since the argument shrinks by `/ 10`). -/
def natToDigitsGo : ℕ → ℕ → Str → Str
  | 0, _, acc => acc
  | fuel + 1, n, acc =>
    if n < 10 then digitChar n :: acc
    else natToDigitsGo fuel (n / 10) (digitChar (n % 10) :: acc)

def natToDigits (n : ℕ) : Str := natToDigitsGo (n + 1) n []

/-- Python `int(x)` on a float: truncation toward zero. -/
def pyInt (x : ℚ) : ℤ := if 0 ≤ x then ⌊x⌋ else ⌈x⌉

/-- Python `str(i)` for an int, as used by the f-string `t={start_seconds}s`. -/
def intToStr (i : ℤ) : Str :=
  if i < 0 then '-' :: natToDigits i.natAbs else natToDigits i.toNat

/-- playword.py lines 97-110, `SubtitleSearchPlayer.create_timestamp_url`. -/
def create_timestamp_url (video_url : Str) (start_time : ℚ) : Str :=
  let start_seconds : ℤ := pyInt start_time
  let stripped : Str :=
    if hasTEq video_url || hasHashTEq video_url
    then stripStartGo false (stripTGo false video_url)
    else video_url
  let sep : Char := if stripped.contains '?' then '&' else '?'
  stripped ++ (sep :: 't' :: '=' :: intToStr start_seconds) ++ ['s']

/-- A time marker occurrence: one of `?` `&` `#` immediately followed by
`t=` and a digit.  Used to state how many time markers a reference holds. -/
def isTMarkerAt : Str → Bool
  | [] => false
  | c :: rest => (c == '?' || c == '&' || c == '#') && tMatchAfter rest

def countTMarkers : Str → ℕ
  | [] => 0
  | c :: rest => (if isTMarkerAt (c :: rest) then 1 else 0) + countTMarkers rest

/-! ### get_subtitle.py: record store -/

/-- One row of the `subtitles` table (get_subtitle.py lines 30-43); the
autoincrement id and `created_at` carry no constraint-relevant content and
are omitted. -/
structure Record where
  video_id : Str
  video_url : Str
  japanese_text : Str
  start_time : ℚ
  end_time : ℚ
  duration : ℚ
  sequence_number : ℕ
deriving DecidableEq

/-- The column triple of the `UNIQUE(video_id, start_time, japanese_text)`
constraint. -/
def keyOf (r : Record) : Str × ℚ × Str := (r.video_id, r.start_time, r.japanese_text)

/-- `INSERT OR IGNORE` + `cursor.rowcount > 0` (get_subtitle.py lines
154-162): returns whether a new row was added, and the new table. -/
def insertIfAbsent (db : List Record) (r : Record) : Bool × List Record :=
  if db.any (fun x => decide (keyOf x = keyOf r)) then (false, db)
  else (true, db ++ [r])

/-- `SELECT COUNT(*) FROM subtitles WHERE video_id = ?` (line 193). -/
def countForVideo (db : List Record) (vid : Str) : ℕ :=
  (db.filter (fun r => r.video_id == vid)).length

/-- Number of stored rows carrying a given key triple. -/
def countKey (db : List Record) (k : Str × ℚ × Str) : ℕ :=
  (db.filter (fun r => decide (keyOf r = k))).length

/-- The store invariant: no two rows share the key triple. -/
def UniqueKeys (db : List Record) : Prop :=
  db.Pairwise (fun a b => keyOf a ≠ keyOf b)

def insertAll (db : List Record) (rs : List Record) : List Record :=
  rs.foldl (fun d r => (insertIfAbsent d r).2) db

/-! ### get_subtitle.py: reference parser (`extract_video_id`) -/

/-- The character class `[0-9A-Za-z_-]`. -/
def isIdChar (c : Char) : Bool := c.isAlphanum || c == '_' || c == '-'

/-- `([0-9A-Za-z_-]{11})` anchored at the current position: exactly the next
11 characters, all in the class. -/
def idCharsAt (l : Str) : Option Str :=
  let pre := l.take 11
  if pre.length == 11 && pre.all isIdChar then some pre else none

/-- Pattern `(?:v=|\/)([0-9A-Za-z_-]{11}).*` tried at one position
(the trailing `.*` always succeeds and binds nothing). -/
def tryPat1At : Str → Option Str
  | 'v' :: '=' :: rest => idCharsAt rest
  | '/' :: rest => idCharsAt rest
  | _ => none

def searchPat1 : Str → Option Str
  | [] => none
  | c :: rest =>
    match tryPat1At (c :: rest) with
    | some vid => some vid
    | none => searchPat1 rest

/-- Pattern `(?:embed\/)([0-9A-Za-z_-]{11})` at one position. -/
def tryPat2At : Str → Option Str
  | 'e' :: 'm' :: 'b' :: 'e' :: 'd' :: '/' :: rest => idCharsAt rest
  | _ => none

def searchPat2 : Str → Option Str
  | [] => none
  | c :: rest =>
    match tryPat2At (c :: rest) with
    | some vid => some vid
    | none => searchPat2 rest

/-- Pattern `(?:v\/)([0-9A-Za-z_-]{11})` at one position. -/
def tryPat3At : Str → Option Str
  | 'v' :: '/' :: rest => idCharsAt rest
  | _ => none

def searchPat3 : Str → Option Str
  | [] => none
  | c :: rest =>
    match tryPat3At (c :: rest) with
    | some vid => some vid
    | none => searchPat3 rest

/-- get_subtitle.py lines 57-70, `extract_video_id`: first matching pattern
wins; no match raises `ValueError`, embedded as `Except.error` with the
message built at line 70. -/
def extract_video_id (url : Str) : Except Str Str :=
  match searchPat1 url with
  | some vid => Except.ok vid
  | none =>
    match searchPat2 url with
    | some vid => Except.ok vid
    | none =>
      match searchPat3 url with
      | some vid => Except.ok vid
      | none => Except.error (("Could not extract video ID from URL: ").data ++ url)

/-! ### get_subtitle.py: track normalizer and ingestion -/

/-- One entry of the json3 `events` list: optional start offset (ms),
optional duration (ms), optional list of segments, each with an optional
`utf8` text. -/
structure SubEvent where
  tStartMs : Option ℚ
  dDurationMs : Option ℚ
  segs : Option (List (Option Str))
deriving DecidableEq

/-- `''.join([seg.get('utf8', '') for seg in event['segs']])` (line 146). -/
def joinSegs (segs : List (Option Str)) : Str := (segs.map (fun s => s.getD [])).flatten

/-- Python `str.strip()`: drop leading and trailing whitespace. -/
def pyStrip (s : Str) : Str :=
  ((s.dropWhile Char.isWhitespace).reverse.dropWhile Char.isWhitespace).reverse

/-- A normalized candidate record before the owning video id / url are
attached. -/
structure Candidate where
  japanese_text : Str
  start_time : ℚ
  end_time : ℚ
  duration : ℚ
  sequence_number : ℕ
deriving DecidableEq

/-- get_subtitle.py lines 143-152: the per-event normalization step.
`none` means the event is discarded (no `segs` key, or empty trimmed text). -/
def normalizeEvent (event : SubEvent) (i : ℕ) : Option Candidate :=
  match event.segs with
  | none => none
  | some segs =>
    let japanese_text := pyStrip (joinSegs segs)
    if japanese_text = [] then none
    else
      let start_time := (event.tStartMs.getD 0) / 1000
      let duration := (event.dDurationMs.getD 0) / 1000
      some ⟨japanese_text, start_time, start_time + duration, duration, i⟩

def candToRecord (vid url : Str) (c : Candidate) : Record :=
  ⟨vid, url, c.japanese_text, c.start_time, c.end_time, c.duration, c.sequence_number⟩

/-- The `for i, event in enumerate(events)` loop of `parse_subtitle_file`
(lines 143-162): normalize each event and insert the survivors, counting
rows actually added. -/
def processEvents (vid url : Str) : List SubEvent → ℕ → List Record → ℕ × List Record
  | [], _, db => (0, db)
  | e :: rest, i, db =>
    match normalizeEvent e i with
    | none => processEvents vid url rest (i + 1) db
    | some c =>
      let p := insertIfAbsent db (candToRecord vid url c)
      let q := processEvents vid url rest (i + 1) p.2
      (q.1 + (if p.1 then 1 else 0), q.2)

/-- The external world of one run: whether `yt-dlp` exits 0 for a url, and
the parsed contents of the downloaded `{id}.ja.json3` /
`{id}.ja-orig.json3` files (`none` = absent or unparseable). -/
structure Env where
  fetchOk : Str → Bool
  subFileJa : Str → Option (List SubEvent)
  subFileJaOrig : Str → Option (List SubEvent)

/-- get_subtitle.py lines 124-181, `parse_subtitle_file`: first readable
subtitle file wins; no file yields 0 insertions. -/
def parse_subtitle_file (env : Env) (vid url : Str) (db : List Record) :
    ℕ × List Record :=
  match env.subFileJa vid with
  | some events => processEvents vid url events 0 db
  | none =>
    match env.subFileJaOrig vid with
    | some events => processEvents vid url events 0 db
    | none => (0, db)

/-- get_subtitle.py lines 92-122, `download_subtitle`: any exception
(including the id-extraction `ValueError`) is caught and becomes
`(False, "")`; otherwise the result is `(returncode == 0, video_id)`. -/
def download_subtitle (env : Env) (video_url : Str) : Bool × Str :=
  match extract_video_id video_url with
  | Except.ok vid => (env.fetchOk video_url, vid)
  | Except.error _ => (false, [])

/-- The five status strings produced by `process_single_video`. -/
inductive Status where
  | success
  | no_subtitles
  | failed
  | error
  | skipped
deriving DecidableEq

/-- The per-video outcome dictionary; branches that set no `error` key are
modelled with `none`. -/
structure Outcome where
  video_id : Str
  url : Str
  status : Status
  error : Option Str
  subtitle_count : ℕ
  processing_time : ℚ
deriving DecidableEq

/-- get_subtitle.py lines 183-238, `process_single_video`.  The wall-clock
`processing_time` is opaque to every claim and is passed in as `elapsed`.
Returns the outcome together with the table state after the run. -/
def process_single_video (env : Env) (db : List Record) (video_url : Str)
    (elapsed : ℚ) : Outcome × List Record :=
  match extract_video_id video_url with
  | Except.error e => (⟨("unknown").data, video_url, Status.error, some e, 0, elapsed⟩, db)
  | Except.ok video_id =>
    let existing_count := countForVideo db video_id
    if 0 < existing_count then
      (⟨video_id, video_url, Status.skipped, none, existing_count, elapsed⟩, db)
    else
      let dl := download_subtitle env video_url
      if dl.1 then
        let pr := parse_subtitle_file env dl.2 video_url db
        (⟨dl.2, video_url,
          if 0 < pr.1 then Status.success else Status.no_subtitles,
          none, pr.1, elapsed⟩, pr.2)
      else
        (⟨video_id, video_url, Status.failed, none, 0, elapsed⟩, db)

/-- The aggregate report of `process_video_list` (lines 244-251). -/
structure Report where
  success : ℕ
  failed : ℕ
  skipped : ℕ
  no_subtitles : ℕ
  total_subtitles : ℕ
  details : List Outcome

/-- get_subtitle.py lines 259-273: fold one completed outcome into the
running report (`'error'` is counted under `failed`). -/
def addOutcome (results : Report) (result : Outcome) : Report :=
  let results := { results with details := results.details ++ [result] }
  match result.status with
  | Status.success =>
    { results with success := results.success + 1,
                   total_subtitles := results.total_subtitles + result.subtitle_count }
  | Status.failed => { results with failed := results.failed + 1 }
  | Status.error => { results with failed := results.failed + 1 }
  | Status.skipped =>
    { results with skipped := results.skipped + 1,
                   total_subtitles := results.total_subtitles + result.subtitle_count }
  | Status.no_subtitles => { results with no_subtitles := results.no_subtitles + 1 }

/-- Run `process_single_video` over each url, threading the table state.
Workers operate on the shared table; completion order only permutes the
aggregation, which the claims do not depend on, so the pool is modelled by
this sequential schedule. -/
def runAll (env : Env) (elapsed : ℚ) :
    List Str → List Record → List Outcome × List Record
  | [], db => ([], db)
  | url :: urls, db =>
    let p := process_single_video env db url elapsed
    let q := runAll env elapsed urls p.2
    (p.1 :: q.1, q.2)

/-- get_subtitle.py lines 240-275, `process_video_list`. -/
def process_video_list (env : Env) (elapsed : ℚ) (video_urls : List Str)
    (db : List Record) : Report × List Record :=
  let r := runAll env elapsed video_urls db
  (r.1.foldl addOutcome ⟨0, 0, 0, 0, 0, []⟩, r.2)

/-! ### playword.py: search engine and context resolver -/

def startsWithL : Str → Str → Bool
  | [], _ => true
  | _ :: _, [] => false
  | p :: ps, c :: cs => p == c && startsWithL ps cs

def containsL (needle : Str) : Str → Bool
  | [] => startsWithL needle []
  | c :: rest => startsWithL needle (c :: rest) || containsL needle rest

/-- SQLite `japanese_text LIKE '%term%'`: substring match, case-insensitive
on ASCII letters (SQLite default `LIKE` behaviour). -/
def sqlLike (needle hay : Str) : Bool :=
  containsL (needle.map Char.toLower) (hay.map Char.toLower)

/-- `ORDER BY video_id, start_time` (TEXT under BINARY collation, then
REAL). -/
def byVideoThenTime (a b : Record) : Prop :=
  a.video_id < b.video_id ∨ (a.video_id = b.video_id ∧ a.start_time ≤ b.start_time)

instance : DecidableRel byVideoThenTime := fun a b =>
  inferInstanceAs (Decidable (a.video_id < b.video_id ∨
    (a.video_id = b.video_id ∧ a.start_time ≤ b.start_time)))

instance : IsTotal Record byVideoThenTime := by
  constructor
  intro a b
  rcases lt_trichotomy a.video_id b.video_id with h | h | h
  · exact Or.inl (Or.inl h)
  · rcases le_total a.start_time b.start_time with h2 | h2
    · exact Or.inl (Or.inr ⟨h, h2⟩)
    · exact Or.inr (Or.inr ⟨h.symm, h2⟩)
  · exact Or.inr (Or.inl h)

instance : IsTrans Record byVideoThenTime := by
  constructor
  intro a b c hab hbc
  rcases hab with h1 | ⟨h1, h1t⟩
  · rcases hbc with h2 | ⟨h2, _⟩
    · exact Or.inl (lt_trans h1 h2)
    · exact Or.inl (h2 ▸ h1)
  · rcases hbc with h2 | ⟨h2, h2t⟩
    · exact Or.inl (h1 ▸ h2)
    · exact Or.inr ⟨h1.trans h2, le_trans h1t h2t⟩

/-- A search result row: the record columns plus the derived replay
reference (playword.py lines 83-92). -/
structure SearchResult where
  video_id : Str
  video_url : Str
  japanese_text : Str
  start_time : ℚ
  end_time : ℚ
  duration : ℚ
  sequence_number : ℕ
  timestamp_url : Str
deriving DecidableEq

def toSearchResult (r : Record) : SearchResult :=
  ⟨r.video_id, r.video_url, r.japanese_text, r.start_time, r.end_time,
   r.duration, r.sequence_number, create_timestamp_url r.video_url r.start_time⟩

/-- playword.py lines 43-95, `search_word_in_subtitles` (default arguments:
`exact_match = False`, `limit = 20`). -/
def search_word_in_subtitles (db : List Record) (search_word : Str)
    (exact_match : Bool) (limit : ℕ) : List SearchResult :=
  let matched :=
    if exact_match then db.filter (fun r => r.japanese_text == search_word)
    else db.filter (fun r => sqlLike search_word r.japanese_text)
  ((matched.insertionSort byVideoThenTime).take limit).map toSearchResult

/-- The optional filter dictionary of `advanced_search`; `none` fields model
absent keys. -/
structure Filters where
  min_duration : Option ℚ
  max_duration : Option ℚ
  video_ids : Option (List Str)
  exclude_short : Option Bool

/-- Python truthiness of `filters.get('min_duration')` /
`filters.get('max_duration')`: present and nonzero. -/
def qTruthy : Option ℚ → Bool
  | none => false
  | some v => !(v == 0)

/-- Python truthiness of `filters.get('video_ids')`: present and non-empty. -/
def idsTruthy : Option (List Str) → Bool
  | none => false
  | some l => !l.isEmpty

/-- Python truthiness of `filters.get('exclude_short')`. -/
def boolTruthy : Option Bool → Bool
  | none => false
  | some b => b

/-- The WHERE clause assembled by `advanced_search` (playword.py lines
249-277): the LIKE condition, AND-ed with one condition per truthy filter. -/
def advPred (search_term : Str) (filters : Option Filters) (r : Record) : Bool :=
  sqlLike search_term r.japanese_text &&
  (match filters with
   | none => true
   | some f =>
     (!qTruthy f.min_duration || decide (f.min_duration.getD 0 ≤ r.duration)) &&
     (!qTruthy f.max_duration || decide (r.duration ≤ f.max_duration.getD 0)) &&
     (!idsTruthy f.video_ids || (f.video_ids.getD []).contains r.video_id) &&
     (!boolTruthy f.exclude_short || decide (5 < r.japanese_text.length)))

/-- playword.py lines 236-299, `advanced_search`: fixed `LIMIT 50`. -/
def advanced_search (db : List Record) (search_term : Str)
    (filters : Option Filters) : List SearchResult :=
  (((db.filter (advPred search_term filters)).insertionSort byVideoThenTime).take 50).map
    toSearchResult

/-- `ORDER BY start_time`. -/
def byTime (a b : Record) : Prop := a.start_time ≤ b.start_time

instance : DecidableRel byTime := fun a b =>
  inferInstanceAs (Decidable (a.start_time ≤ b.start_time))

instance : IsTotal Record byTime := ⟨fun a b => le_total a.start_time b.start_time⟩

instance : IsTrans Record byTime :=
  ⟨fun _ _ _ hab hbc => le_trans hab hbc⟩

/-- One line of the context display (playword.py lines 183-192). -/
structure ContextItem where
  text : Str
  start_time : ℚ
  end_time : ℚ
  sequence_number : ℕ
  is_target : Bool
deriving DecidableEq

/-- playword.py lines 157-195, `get_video_context`: rows of the video whose
`start_time` lies in `BETWEEN target - w AND target + w` (inclusive),
ordered by `start_time`, each flagged as target when
`abs(start_time - target_time) < 1.0`. -/
def get_video_context (db : List Record) (video_id : Str) (target_time : ℚ)
    (context_seconds : ℚ) : List ContextItem :=
  let rows := db.filter (fun r =>
    r.video_id == video_id &&
    decide (target_time - context_seconds ≤ r.start_time) &&
    decide (r.start_time ≤ target_time + context_seconds))
  (rows.insertionSort byTime).map (fun r =>
    ⟨r.japanese_text, r.start_time, r.end_time, r.sequence_number,
     decide (|r.start_time - target_time| < 1)⟩)

/-! ## Lemmas about the record store -/

lemma insertIfAbsent_keeps (db : List Record) (r : Record) (h : UniqueKeys db) :
    UniqueKeys (insertIfAbsent db r).2 := by
  unfold insertIfAbsent
  split
  · exact h
  · next hany =>
    simp only
    rw [UniqueKeys, List.pairwise_append]
    refine ⟨h, List.pairwise_singleton _ _, ?_⟩
    intro a ha b hb
    have hb2 : b = r := by simpa using hb
    subst hb2
    intro hk
    exact hany (List.any_eq_true.mpr ⟨a, ha, by simp [hk]⟩)

lemma insertAll_keeps (rs : List Record) :
    ∀ db : List Record, UniqueKeys db → UniqueKeys (insertAll db rs) := by
  induction rs with
  | nil => intro db h; exact h
  | cons r rs ih =>
    intro db h
    have : insertAll db (r :: rs) = insertAll (insertIfAbsent db r).2 rs := rfl
    rw [this]
    exact ih _ (insertIfAbsent_keeps db r h)

lemma countKey_eq_zero (d : List Record) (k : Str × ℚ × Str) :
    countKey d k = 0 ↔ ∀ a ∈ d, keyOf a ≠ k := by
  simp [countKey, List.length_eq_zero, List.filter_eq_nil_iff]

lemma countKey_append_one (d : List Record) (r : Record) (k : Str × ℚ × Str) :
    countKey (d ++ [r]) k = countKey d k + (if keyOf r = k then 1 else 0) := by
  simp only [countKey, List.filter_append]
  rw [List.length_append]
  congr 1
  by_cases h : keyOf r = k <;> simp [h]

/-- C3: after any sequence of inserts the store keeps the
`(videoId, startTime, text)` uniqueness invariant, and inserting two
candidates with an identical key triple yields exactly one stored row, the
second attempt reporting no new row instead of an error. -/
theorem claim_C3 (db rs : List Record) (h : UniqueKeys db) :
    UniqueKeys (insertAll db rs) ∧
    ∀ (d : List Record) (r1 r2 : Record), keyOf r1 = keyOf r2 →
      countKey d (keyOf r1) = 0 →
      (insertIfAbsent (insertIfAbsent d r1).2 r2).1 = false ∧
      countKey (insertIfAbsent (insertIfAbsent d r1).2 r2).2 (keyOf r1) = 1 := by
  refine ⟨insertAll_keeps rs db h, ?_⟩
  intro d r1 r2 hk hz
  have habs : ∀ a ∈ d, keyOf a ≠ keyOf r1 := (countKey_eq_zero d _).mp hz
  have h1 : insertIfAbsent d r1 = (true, d ++ [r1]) := by
    unfold insertIfAbsent
    rw [if_neg]
    intro hany
    rcases List.any_eq_true.mp hany with ⟨a, ha, hka⟩
    exact habs a ha (by simpa using hka)
  have h2 : insertIfAbsent (d ++ [r1]) r2 = (false, d ++ [r1]) := by
    unfold insertIfAbsent
    rw [if_pos]
    exact List.any_eq_true.mpr ⟨r1, by simp, by simp [hk]⟩
  rw [h1]
  simp only [h2]
  refine ⟨trivial, ?_⟩
  rw [countKey_append_one, hz, if_pos rfl]

/-- C3 witness at a concrete input. -/
theorem claim_C3_witness :
    UniqueKeys (insertAll [] [⟨['v'], [], ['a'], 1, 2, 1, 0⟩]) ∧
    ((insertIfAbsent (insertIfAbsent []
        (⟨['v'], [], ['a'], 1, 2, 1, 0⟩ : Record)).2
        (⟨['v'], ['u'], ['a'], 1, 3, 2, 7⟩ : Record)).1 = false ∧
      countKey (insertIfAbsent (insertIfAbsent []
        (⟨['v'], [], ['a'], 1, 2, 1, 0⟩ : Record)).2
        (⟨['v'], ['u'], ['a'], 1, 3, 2, 7⟩ : Record)).2
        (keyOf (⟨['v'], [], ['a'], 1, 2, 1, 0⟩ : Record)) = 1) := by
  have h := claim_C3 [] [⟨['v'], [], ['a'], 1, 2, 1, 0⟩] List.Pairwise.nil
  exact ⟨h.1, h.2 [] ⟨['v'], [], ['a'], 1, 2, 1, 0⟩ ⟨['v'], ['u'], ['a'], 1, 3, 2, 7⟩
    rfl rfl⟩

/-! ## Lemmas about the batch scheduler -/

lemma addOutcome_step (r : Report) (o : Outcome) :
    (addOutcome r o).success + (addOutcome r o).failed + (addOutcome r o).skipped +
        (addOutcome r o).no_subtitles =
      (r.success + r.failed + r.skipped + r.no_subtitles) + 1 ∧
    (addOutcome r o).details = r.details ++ [o] := by
  cases h : o.status <;> simp [addOutcome, h] <;> omega

lemma foldl_addOutcome (os : List Outcome) :
    ∀ r : Report,
      (os.foldl addOutcome r).success + (os.foldl addOutcome r).failed +
          (os.foldl addOutcome r).skipped + (os.foldl addOutcome r).no_subtitles =
        (r.success + r.failed + r.skipped + r.no_subtitles) + os.length ∧
      (os.foldl addOutcome r).details.length = r.details.length + os.length := by
  induction os with
  | nil => intro r; simp
  | cons o os ih =>
    intro r
    have hs := addOutcome_step r o
    have h2 := ih (addOutcome r o)
    have e1 := h2.1
    have e2 := hs.1
    have e3 := h2.2
    have e4 : (addOutcome r o).details.length = r.details.length + 1 := by
      rw [hs.2]; simp
    constructor
    · rw [List.foldl_cons, List.length_cons]; omega
    · rw [List.foldl_cons, List.length_cons]; omega

lemma runAll_length (env : Env) (elapsed : ℚ) (urls : List Str) :
    ∀ db : List Record, (runAll env elapsed urls db).1.length = urls.length := by
  induction urls with
  | nil => intro db; rfl
  | cons u us ih => intro db; simp [runAll, ih]

/-- C8: the batch scheduler always returns a completed report in which the
four status counters sum to the number of submitted references and every
outcome lands in the detail list. -/
theorem claim_C8 (env : Env) (elapsed : ℚ) (urls : List Str) (db : List Record) :
    (process_video_list env elapsed urls db).1.success +
        (process_video_list env elapsed urls db).1.failed +
        (process_video_list env elapsed urls db).1.skipped +
        (process_video_list env elapsed urls db).1.no_subtitles = urls.length ∧
    (process_video_list env elapsed urls db).1.details.length = urls.length := by
  unfold process_video_list
  simp only
  have h := foldl_addOutcome (runAll env elapsed urls db).1 ⟨0, 0, 0, 0, 0, []⟩
  have hl := runAll_length env elapsed urls db
  constructor
  · rw [h.1, hl]; simp
  · rw [h.2, hl]; simp

/-! ## Advanced-search filter lemmas -/

lemma advPred_falsy (term : Str) (f : Filters) (r : Record)
    (h1 : qTruthy f.min_duration = false) (h2 : qTruthy f.max_duration = false)
    (h3 : idsTruthy f.video_ids = false) (h4 : boolTruthy f.exclude_short = false) :
    advPred term (some f) r = advPred term none r := by
  simp [advPred, h1, h2, h3, h4]

/-- C9: a falsy filter entry (zero duration bound, empty id list, false
`exclude_short`) adds no condition, so advanced search with an all-falsy
filter dictionary equals advanced search with no filters. -/
theorem claim_C9 (db : List Record) (term : Str) (f : Filters)
    (h1 : qTruthy f.min_duration = false) (h2 : qTruthy f.max_duration = false)
    (h3 : idsTruthy f.video_ids = false) (h4 : boolTruthy f.exclude_short = false) :
    advanced_search db term (some f) = advanced_search db term none := by
  unfold advanced_search
  rw [List.filter_congr (fun r _ => advPred_falsy term f r h1 h2 h3 h4)]

/-- C9 witness at a concrete input. -/
theorem claim_C9_witness :
    advanced_search [⟨['v'], ['u'], ['h', 'i'], 1, 2, 1, 0⟩] ['h']
        (some ⟨some 0, some 0, some [], some false⟩) =
      advanced_search [⟨['v'], ['u'], ['h', 'i'], 1, 2, 1, 0⟩] ['h'] none :=
  claim_C9 [⟨['v'], ['u'], ['h', 'i'], 1, 2, 1, 0⟩] ['h']
    ⟨some 0, some 0, some [], some false⟩ (by decide) (by decide) rfl rfl

/-! ## Per-video ingestion outcomes -/

/-- C10: `process_single_video` is total; an id-extraction failure (the
exception source inside its `try` block) is caught and becomes an outcome
with status `'error'`, `video_id 'unknown'`, `subtitle_count 0` and the
exception message in the `error` field, leaving the store untouched. -/
theorem claim_C10 (env : Env) (db : List Record) (url : Str) (elapsed : ℚ)
    (msg : Str) (h : extract_video_id url = Except.error msg) :
    process_single_video env db url elapsed =
      (⟨("unknown").data, url, Status.error, some msg, 0, elapsed⟩, db) := by
  simp [process_single_video, h]

/-- C10 witness at a concrete input. -/
theorem claim_C10_witness :
    process_single_video ⟨fun _ => false, fun _ => none, fun _ => none⟩ [] ['x'] 0 =
      (⟨("unknown").data, ['x'], Status.error,
        some (("Could not extract video ID from URL: ").data ++ ['x']), 0, 0⟩, []) :=
  claim_C10 ⟨fun _ => false, fun _ => none, fun _ => none⟩ [] ['x'] 0
    (("Could not extract video ID from URL: ").data ++ ['x']) rfl

/-- C2: when no pattern rule extracts an id, `extract_video_id` fails with
the invalid-reference error, and `process_single_video` on such a reference
returns an outcome carrying that error which the scheduler counts as a
failure (it neither raises nor lands in any other counter), leaving the
store untouched. -/
theorem claim_C2 (env : Env) (db : List Record) (url : Str) (elapsed : ℚ)
    (msg : Str) :
    (searchPat1 url = none → searchPat2 url = none → searchPat3 url = none →
      extract_video_id url =
        Except.error (("Could not extract video ID from URL: ").data ++ url)) ∧
    (extract_video_id url = Except.error msg →
      (process_single_video env db url elapsed).1.status = Status.error ∧
      (process_single_video env db url elapsed).1.error = some msg ∧
      (∀ rep : Report,
        (addOutcome rep (process_single_video env db url elapsed).1).failed =
          rep.failed + 1 ∧
        (addOutcome rep (process_single_video env db url elapsed).1).success =
          rep.success ∧
        (addOutcome rep (process_single_video env db url elapsed).1).skipped =
          rep.skipped ∧
        (addOutcome rep (process_single_video env db url elapsed).1).no_subtitles =
          rep.no_subtitles) ∧
      (process_single_video env db url elapsed).2 = db) := by
  constructor
  · intro h1 h2 h3
    simp [extract_video_id, h1, h2, h3]
  · intro hE
    rw [claim_C10 env db url elapsed msg hE]
    refine ⟨rfl, rfl, ?_, rfl⟩
    intro rep
    simp [addOutcome]

/-- C2 witness at a concrete input. -/
theorem claim_C2_witness :
    extract_video_id ['x'] =
      Except.error (("Could not extract video ID from URL: ").data ++ ['x']) ∧
    (process_single_video ⟨fun _ => false, fun _ => none, fun _ => none⟩ []
        ['x'] 0).1.status = Status.error := by
  have h := claim_C2 ⟨fun _ => false, fun _ => none, fun _ => none⟩ [] ['x'] 0
    (("Could not extract video ID from URL: ").data ++ ['x'])
  have hE := h.1 rfl rfl rfl
  exact ⟨hE, (h.2 hE).1⟩

/-! ## Track normalizer -/

/-- C5: an event yields a candidate record iff the trimmed concatenation of
its segments is non-empty; an emitted candidate carries the event position
as sequence number, millisecond offsets divided by 1000 (missing offsets
defaulting to 0), and `endTime = startTime + duration`; in particular
`startMs = 1500, durationMs = 2500` gives `1.5 / 4.0 / 2.5`. -/
theorem claim_C5 :
    (∀ (e : SubEvent) (i : ℕ),
      (normalizeEvent e i).isSome = true ↔ pyStrip (joinSegs (e.segs.getD [])) ≠ []) ∧
    (∀ (e : SubEvent) (i : ℕ) (c : Candidate), normalizeEvent e i = some c →
      c.sequence_number = i ∧
      c.japanese_text = pyStrip (joinSegs (e.segs.getD [])) ∧
      c.start_time = e.tStartMs.getD 0 / 1000 ∧
      c.duration = e.dDurationMs.getD 0 / 1000 ∧
      c.end_time = c.start_time + c.duration) ∧
    (∀ (s : Str) (c : Candidate),
      normalizeEvent ⟨some 1500, some 2500, some [some s]⟩ 0 = some c →
      c.start_time = 3 / 2 ∧ c.end_time = 4 ∧ c.duration = 5 / 2) := by
  refine ⟨?_, ?_, ?_⟩
  · intro e i
    cases hs : e.segs with
    | none => simp [normalizeEvent, hs, joinSegs, pyStrip]
    | some segs =>
      by_cases ht : pyStrip (joinSegs segs) = [] <;>
        simp [normalizeEvent, hs, ht]
  · intro e i c h
    cases hs : e.segs with
    | none => simp [normalizeEvent, hs] at h
    | some segs =>
      by_cases ht : pyStrip (joinSegs segs) = []
      · simp [normalizeEvent, hs, ht] at h
      · simp only [normalizeEvent, hs, if_neg ht] at h
        injection h with h2
        subst h2
        simp [hs]
  · intro s c h
    by_cases ht : pyStrip (joinSegs [some s]) = []
    · simp [normalizeEvent, ht] at h
    · simp only [normalizeEvent, if_neg ht] at h
      injection h with h2
      subst h2
      refine ⟨by norm_num, by norm_num, by norm_num⟩

/-- C5 witness at a concrete input. -/
theorem claim_C5_witness :
    (⟨['h', 'i'], 1500 / 1000, 1500 / 1000 + 2500 / 1000, 2500 / 1000, 0⟩ :
        Candidate).start_time = 3 / 2 ∧
    (⟨['h', 'i'], 1500 / 1000, 1500 / 1000 + 2500 / 1000, 2500 / 1000, 0⟩ :
        Candidate).end_time = 4 ∧
    (⟨['h', 'i'], 1500 / 1000, 1500 / 1000 + 2500 / 1000, 2500 / 1000, 0⟩ :
        Candidate).duration = 5 / 2 :=
  claim_C5.2.2 ['h', 'i'] _ rfl

/-! ## Ingestion idempotence -/

lemma processEvents_count (vid url : Str) (events : List SubEvent) :
    ∀ (i : ℕ) (db : List Record),
      countForVideo (processEvents vid url events i db).2 vid =
        countForVideo db vid + (processEvents vid url events i db).1 := by
  induction events with
  | nil => intro i db; simp [processEvents]
  | cons e rest ih =>
    intro i db
    cases hne : normalizeEvent e i with
    | none => simpa [processEvents, hne] using ih (i + 1) db
    | some c =>
      simp only [processEvents, hne]
      unfold insertIfAbsent
      split
      · simp only
        rw [ih (i + 1) db]
        simp
      · simp only
        rw [ih (i + 1) (db ++ [candToRecord vid url c])]
        have hone : countForVideo (db ++ [candToRecord vid url c]) vid =
            countForVideo db vid + 1 := by
          simp [countForVideo, List.filter_append, candToRecord]
        rw [hone]
        simp
        omega

lemma parse_count (env : Env) (vid url : Str) (db : List Record) :
    countForVideo (parse_subtitle_file env vid url db).2 vid =
      countForVideo db vid + (parse_subtitle_file env vid url db).1 := by
  unfold parse_subtitle_file
  cases hja : env.subFileJa vid with
  | some events => exact processEvents_count vid url events 0 db
  | none =>
    cases ho : env.subFileJaOrig vid with
    | some events => exact processEvents_count vid url events 0 db
    | none => simp

/-- C4: a reference whose first ingestion run succeeds is skipped by the
second run, which reports the stored record count (positive) and leaves the
store unchanged. -/
theorem claim_C4 (env : Env) (db : List Record) (url : Str) (t1 t2 : ℚ)
    (h : (process_single_video env db url t1).1.status = Status.success) :
    ∃ vid, extract_video_id url = Except.ok vid ∧
      0 < countForVideo (process_single_video env db url t1).2 vid ∧
      process_single_video env (process_single_video env db url t1).2 url t2 =
        (⟨vid, url, Status.skipped, none,
          countForVideo (process_single_video env db url t1).2 vid, t2⟩,
         (process_single_video env db url t1).2) := by
  cases hE : extract_video_id url with
  | error msg => simp [process_single_video, hE] at h
  | ok vid =>
    by_cases hex : 0 < countForVideo db vid
    · simp [process_single_video, hE, hex] at h
    · have hdl : download_subtitle env url = (env.fetchOk url, vid) := by
        simp [download_subtitle, hE]
      by_cases hf : env.fetchOk url = true
      · have h1 : process_single_video env db url t1 =
            (⟨vid, url,
              if 0 < (parse_subtitle_file env vid url db).1 then Status.success
              else Status.no_subtitles,
              none, (parse_subtitle_file env vid url db).1, t1⟩,
             (parse_subtitle_file env vid url db).2) := by
          simp [process_single_video, hE, hex, hdl, hf]
        rw [h1] at h
        simp only at h
        have hpos : 0 < (parse_subtitle_file env vid url db).1 := by
          by_contra hneg
          rw [if_neg hneg] at h
          exact Status.noConfusion h
        have hzero : countForVideo db vid = 0 := by omega
        have hcnt : countForVideo (parse_subtitle_file env vid url db).2 vid =
            (parse_subtitle_file env vid url db).1 := by
          rw [parse_count env vid url db, hzero, Nat.zero_add]
        refine ⟨vid, rfl, ?_, ?_⟩
        · rw [h1]
          simp only
          rw [hcnt]
          exact hpos
        · rw [h1]
          simp only
          have hpos2 : 0 < countForVideo (parse_subtitle_file env vid url db).2 vid := by
            rw [hcnt]; exact hpos
          simp [process_single_video, hE, hpos2]
      · have hf2 : env.fetchOk url = false := by
          simpa using hf
        simp [process_single_video, hE, hex, hdl, hf2] at h

/-- C4 witness at a concrete input. -/
theorem claim_C4_witness :
    ∃ vid,
      extract_video_id (("v=abcdefghijk").data) = Except.ok vid ∧
      0 < countForVideo
        (process_single_video
          ⟨fun _ => true, fun _ => some [⟨some 0, some 1000, some [some ['h']]⟩],
           fun _ => none⟩ [] (("v=abcdefghijk").data) 0).2 vid ∧
      process_single_video
          ⟨fun _ => true, fun _ => some [⟨some 0, some 1000, some [some ['h']]⟩],
           fun _ => none⟩
          (process_single_video
            ⟨fun _ => true, fun _ => some [⟨some 0, some 1000, some [some ['h']]⟩],
             fun _ => none⟩ [] (("v=abcdefghijk").data) 0).2
          (("v=abcdefghijk").data) 0 =
        (⟨vid, ("v=abcdefghijk").data, Status.skipped, none,
          countForVideo
            (process_single_video
              ⟨fun _ => true, fun _ => some [⟨some 0, some 1000, some [some ['h']]⟩],
               fun _ => none⟩ [] (("v=abcdefghijk").data) 0).2 vid, 0⟩,
         (process_single_video
           ⟨fun _ => true, fun _ => some [⟨some 0, some 1000, some [some ['h']]⟩],
            fun _ => none⟩ [] (("v=abcdefghijk").data) 0).2) :=
  claim_C4 ⟨fun _ => true, fun _ => some [⟨some 0, some 1000, some [some ['h']]⟩],
    fun _ => none⟩ [] (("v=abcdefghijk").data) 0 0 rfl

/-! ## Search ordering and limits -/

/-- The `(videoId, startTime)` ascending order on result rows. -/
def resultKeyLE (a b : SearchResult) : Prop :=
  a.video_id < b.video_id ∨ (a.video_id = b.video_id ∧ a.start_time ≤ b.start_time)

lemma sorted_search_list (l : List Record) (n : ℕ) :
    (((l.insertionSort byVideoThenTime).take n).map toSearchResult).Pairwise
        resultKeyLE ∧
    (((l.insertionSort byVideoThenTime).take n).map toSearchResult).length ≤ n := by
  constructor
  · have hs : (l.insertionSort byVideoThenTime).Pairwise byVideoThenTime :=
      List.sorted_insertionSort byVideoThenTime l
    have ht : ((l.insertionSort byVideoThenTime).take n).Pairwise byVideoThenTime :=
      List.Pairwise.sublist (List.take_sublist n _) hs
    exact List.Pairwise.map toSearchResult (fun a b hab => hab) ht
  · rw [List.length_map]
    exact List.length_take_le n _

/-- C6: plain and advanced search both return rows ordered by
`(videoId, startTime)` ascending (never insertion order), and with default
limits return at most 20 and at most 50 rows respectively. -/
theorem claim_C6 :
    (∀ (db : List Record) (word : Str) (exact_match : Bool),
      (search_word_in_subtitles db word exact_match 20).Pairwise resultKeyLE ∧
      (search_word_in_subtitles db word exact_match 20).length ≤ 20) ∧
    (∀ (db : List Record) (term : Str) (filters : Option Filters),
      (advanced_search db term filters).Pairwise resultKeyLE ∧
      (advanced_search db term filters).length ≤ 50) := by
  constructor
  · intro db word exact_match
    unfold search_word_in_subtitles
    cases exact_match
    · simpa using sorted_search_list (db.filter fun r => sqlLike word r.japanese_text) 20
    · simpa using sorted_search_list (db.filter fun r => r.japanese_text == word) 20
  · intro db term filters
    unfold advanced_search
    exact sorted_search_list (db.filter (advPred term filters)) 50

/-! ## Context resolver -/

/-- C7: the context window holds exactly the video's records with
`startTime` in the closed interval `[target - w, target + w]` (so 90.0 is
included and 89.9 excluded for target 100, window 10), ordered by
`startTime`, and an item is flagged as target exactly when its `startTime`
is within 1.0 second of the target (strict comparison, possibly marking
several items). -/
theorem claim_C7 (db : List Record) (vid : Str) (t w : ℚ) :
    (get_video_context db vid t w).Perm
      ((db.filter (fun r => r.video_id == vid &&
          decide (t - w ≤ r.start_time) && decide (r.start_time ≤ t + w))).map
        (fun r => (⟨r.japanese_text, r.start_time, r.end_time, r.sequence_number,
          decide (|r.start_time - t| < 1)⟩ : ContextItem))) ∧
    (get_video_context db vid t w).Pairwise
      (fun a b => a.start_time ≤ b.start_time) ∧
    ((get_video_context db vid t w).all fun item =>
      item.is_target == decide (|item.start_time - t| < 1)) = true ∧
    (get_video_context
        [⟨['v'], [], ['a'], 90, 91, 1, 0⟩, ⟨['v'], [], ['b'], 899 / 10, 91, 1, 1⟩]
        ['v'] 100 10).map (fun item => item.start_time) = [90] := by
  refine ⟨?_, ?_, ?_, ?_⟩
  · simp only [get_video_context]
    exact List.Perm.map _ (List.perm_insertionSort byTime _)
  · simp only [get_video_context]
    have hs := List.sorted_insertionSort byTime (db.filter (fun r =>
      r.video_id == vid && decide (t - w ≤ r.start_time) &&
        decide (r.start_time ≤ t + w)))
    exact List.Pairwise.map _ (fun a b hab => hab) hs
  · simp only [get_video_context]
    rw [List.all_eq_true]
    intro item hitem
    rcases List.mem_map.mp hitem with ⟨r, _, hre⟩
    rw [← hre]
    simp
  · have h90 : ((100 : ℚ) - 10 ≤ 90) := by norm_num
    have h110 : ((90 : ℚ) ≤ 100 + 10) := by norm_num
    have h899 : ¬ ((100 : ℚ) - 10 ≤ 899 / 10) := by norm_num
    simp [get_video_context, List.insertionSort, List.orderedInsert,
      List.filter, h90, h110, h899]

/-- C7 boundary-instance restated on its own concrete store (90.0 included,
89.9 excluded): follows from the general theorem. -/
theorem claim_C7_witness :
    (get_video_context
        [⟨['v'], [], ['a'], 90, 91, 1, 0⟩, ⟨['v'], [], ['b'], 899 / 10, 91, 1, 1⟩]
        ['v'] 100 10).map (fun item => item.start_time) = [90] :=
  (claim_C7 [] [] 0 0).2.2.2

/-! ## Replay reference builder: auxiliary lemmas -/

lemma hasTEq_false_parts (c : Char) (l : Str) (h : hasTEq (c :: l) = false) :
    startsTEq (c :: l) = false ∧ hasTEq l = false := by
  simp only [hasTEq, Bool.or_eq_false_iff] at h
  exact h

lemma tMatchAfter_true_elim (l : Str) (h : tMatchAfter l = true) :
    ∃ c3 w, l = 't' :: '=' :: c3 :: w ∧ c3.isDigit = true := by
  cases l with
  | nil => simp [tMatchAfter] at h
  | cons c1 l1 =>
    cases l1 with
    | nil => simp [tMatchAfter] at h
    | cons c2 l2 =>
      cases l2 with
      | nil => simp [tMatchAfter] at h
      | cons c3 l3 =>
        simp only [tMatchAfter, Bool.and_eq_true, beq_iff_eq] at h
        exact ⟨c3, l3, by rw [h.1.1, h.1.2], h.2⟩

lemma sMatchAfter_true_elim (l : Str) (h : sMatchAfter l = true) :
    ∃ c7 w, l = 's' :: 't' :: 'a' :: 'r' :: 't' :: '=' :: c7 :: w ∧
      c7.isDigit = true := by
  cases l with
  | nil => simp [sMatchAfter] at h
  | cons c1 l1 =>
    cases l1 with
    | nil => simp [sMatchAfter] at h
    | cons c2 l2 =>
      cases l2 with
      | nil => simp [sMatchAfter] at h
      | cons c3 l3 =>
        cases l3 with
        | nil => simp [sMatchAfter] at h
        | cons c4 l4 =>
          cases l4 with
          | nil => simp [sMatchAfter] at h
          | cons c5 l5 =>
            cases l5 with
            | nil => simp [sMatchAfter] at h
            | cons c6 l6 =>
              cases l6 with
              | nil => simp [sMatchAfter] at h
              | cons c7 l7 =>
                simp only [sMatchAfter, Bool.and_eq_true, beq_iff_eq] at h
                refine ⟨c7, l7, ?_, h.2⟩
                rw [h.1.1.1.1.1.1, h.1.1.1.1.1.2, h.1.1.1.1.2, h.1.1.1.2,
                  h.1.1.2, h.1.2]

lemma tMatchAfter_append_false (x z : Str) (h : hasTEq x = false)
    (hz1 : z.head? ≠ some 't') (hz2 : z.head? ≠ some '=') :
    tMatchAfter (x ++ z) = false := by
  cases hm : tMatchAfter (x ++ z)
  · rfl
  · exfalso
    obtain ⟨c3, ww, heq, _⟩ := tMatchAfter_true_elim _ hm
    cases x with
    | nil =>
      rw [List.nil_append] at heq
      exact hz1 (by rw [heq]; rfl)
    | cons a x1 =>
      cases x1 with
      | nil =>
        simp only [List.cons_append, List.nil_append] at heq
        injection heq with ha hz
        exact hz2 (by rw [hz]; rfl)
      | cons b x2 =>
        simp only [List.cons_append] at heq
        injection heq with ha heq2
        injection heq2 with hb _
        have hst : startsTEq (a :: b :: x2) = true := by
          simp [startsTEq, ha, hb]
        have h1 := (hasTEq_false_parts a (b :: x2) h).1
        rw [hst] at h1
        exact Bool.noConfusion h1

lemma stripTGo_false_cons (c : Char) (l : Str)
    (hm : ((c == '&' || c == '#') && tMatchAfter l) = false) :
    stripTGo false (c :: l) = c :: stripTGo false l := by
  cases l with
  | nil => rfl
  | cons c1 l1 =>
    cases l1 with
    | nil => rfl
    | cons c2 l2 =>
      cases l2 with
      | nil => rfl
      | cons c3 l3 =>
        simp only [stripTGo, Bool.false_and, Bool.false_eq_true, if_false, hm]

lemma stripTGo_true_digit (d : Char) (l : Str) (hd : d.isDigit = true) :
    stripTGo true (d :: l) = stripTGo true l := by
  cases l with
  | nil => simp [stripTGo, hd]
  | cons c1 l1 =>
    cases l1 with
    | nil => simp [stripTGo, hd]
    | cons c2 l2 =>
      cases l2 with
      | nil => simp [stripTGo, hd]
      | cons c3 l3 => simp [stripTGo, hd]

lemma stripTGo_match (c dh : Char) (l : Str) (hc : (c == '&' || c == '#') = true)
    (hdh : dh.isDigit = true) (sw : Bool) :
    stripTGo sw (c :: 't' :: '=' :: dh :: l) = stripTGo true l := by
  have hcd : c.isDigit = false := by
    rcases Bool.or_eq_true_iff.mp hc with hb | hb
    · rw [beq_iff_eq.mp hb]; rfl
    · rw [beq_iff_eq.mp hb]; rfl
  cases sw <;> simp [stripTGo, tMatchAfter, hc, hdh, hcd]

lemma stripTGo_swallow (ds : Str) (hds : ∀ c ∈ ds, c.isDigit = true) (z : Str) :
    stripTGo true (ds ++ z) = stripTGo true z := by
  induction ds with
  | nil => rfl
  | cons d ds1 ih =>
    rw [List.cons_append,
      stripTGo_true_digit d (ds1 ++ z) (hds d (List.mem_cons_self d ds1))]
    exact ih (fun c hc => hds c (List.mem_cons_of_mem d hc))

lemma stripTGo_pass (x : Str) (hx : hasTEq x = false) :
    ∀ z : Str, z.head? ≠ some 't' → z.head? ≠ some '=' →
      stripTGo false (x ++ z) = x ++ stripTGo false z := by
  induction x with
  | nil => intro z _ _; rfl
  | cons c x1 ih =>
    intro z hz1 hz2
    obtain ⟨hs, hx1⟩ := hasTEq_false_parts c x1 hx
    rw [List.cons_append,
      stripTGo_false_cons c (x1 ++ z)
        (by rw [tMatchAfter_append_false x1 z hx1 hz1 hz2, Bool.and_false]),
      ih hx1 z hz1 hz2, List.cons_append]

lemma stripStartGo_false_cons (c : Char) (l : Str)
    (hm : ((c == '&' || c == '#') && sMatchAfter l) = false) :
    stripStartGo false (c :: l) = c :: stripStartGo false l := by
  cases l with
  | nil => rfl
  | cons c1 l1 =>
    cases l1 with
    | nil => rfl
    | cons c2 l2 =>
      cases l2 with
      | nil => rfl
      | cons c3 l3 =>
        cases l3 with
        | nil => rfl
        | cons c4 l4 =>
          cases l4 with
          | nil => rfl
          | cons c5 l5 =>
            cases l5 with
            | nil => rfl
            | cons c6 l6 =>
              cases l6 with
              | nil => rfl
              | cons c7 l7 =>
                simp only [stripStartGo, Bool.false_and, Bool.false_eq_true,
                  if_false, hm]

lemma stripStartGo_noop (y : Str) (hy : hasTEq y = false) :
    stripStartGo false y = y := by
  induction y with
  | nil => rfl
  | cons c y1 ih =>
    obtain ⟨hs, hy1⟩ := hasTEq_false_parts c y1 hy
    have hsm : sMatchAfter y1 = false := by
      cases hm : sMatchAfter y1
      · rfl
      · exfalso
        obtain ⟨c7, ww, heq, _⟩ := sMatchAfter_true_elim y1 hm
        rw [heq] at hy1
        simp [hasTEq, startsTEq] at hy1
    rw [stripStartGo_false_cons c y1 (by rw [hsm, Bool.and_false]), ih hy1]

lemma hasTEq_append_right (x z : Str) (hz : hasTEq z = true) :
    hasTEq (x ++ z) = true := by
  induction x with
  | nil => exact hz
  | cons c x1 ih =>
    rw [List.cons_append]
    show (startsTEq (c :: (x1 ++ z)) || hasTEq (x1 ++ z)) = true
    rw [ih, Bool.or_true]

lemma hasTEq_append_single (x : Str) (c : Char) (hx : hasTEq x = false)
    (hc : (c == '=') = false) : hasTEq (x ++ [c]) = false := by
  induction x with
  | nil =>
    show (startsTEq [c] || hasTEq []) = false
    simp [startsTEq, hasTEq]
  | cons c0 x1 ih =>
    obtain ⟨hs, hx1⟩ := hasTEq_false_parts c0 x1 hx
    rw [List.cons_append]
    show (startsTEq (c0 :: (x1 ++ [c])) || hasTEq (x1 ++ [c])) = false
    rw [ih hx1, Bool.or_false]
    cases x1 with
    | nil =>
      show (c0 == 't' && c == '=') = false
      rw [hc, Bool.and_false]
    | cons a x2 =>
      show (c0 == 't' && a == '=') = false
      exact hs

lemma hasHashTEq_of_no_teq (l : Str) (h : hasTEq l = false) :
    hasHashTEq l = false := by
  induction l with
  | nil => rfl
  | cons c rest ih =>
    obtain ⟨h1, h2⟩ := hasTEq_false_parts c rest h
    show (startsHashTEq (c :: rest) || hasHashTEq rest) = false
    rw [ih h2, Bool.or_false]
    cases rest with
    | nil => rfl
    | cons c2 r2 =>
      cases r2 with
      | nil => rfl
      | cons c3 r3 =>
        have h3 : (c2 == 't' && c3 == '=') = false :=
          (hasTEq_false_parts c2 (c3 :: r3) h2).1
        show (c == '#' && c2 == 't' && c3 == '=') = false
        cases hb : c2 == 't' <;> cases hcq : c3 == '=' <;>
          simp_all

lemma isTMarkerAt_cons (c : Char) (l : Str) :
    isTMarkerAt (c :: l) = ((c == '?' || c == '&' || c == '#') && tMatchAfter l) :=
  rfl

lemma countTMarkers_cons (c : Char) (l : Str) :
    countTMarkers (c :: l) = (if isTMarkerAt (c :: l) then 1 else 0) + countTMarkers l :=
  rfl

lemma countTMarkers_zero (l : Str)
    (h : ∀ c ∈ l, (c == '?' || c == '&' || c == '#') = false) :
    countTMarkers l = 0 := by
  induction l with
  | nil => rfl
  | cons c l1 ih =>
    rw [countTMarkers_cons, isTMarkerAt_cons, h c (List.mem_cons_self c l1),
      Bool.false_and]
    simpa using ih (fun c hc => h c (List.mem_cons_of_mem _ hc))

lemma countTMarkers_pass (x : Str) (hx : hasTEq x = false) :
    ∀ z : Str, z.head? ≠ some 't' → z.head? ≠ some '=' →
      countTMarkers (x ++ z) = countTMarkers z := by
  induction x with
  | nil => intro z _ _; rfl
  | cons c x1 ih =>
    intro z hz1 hz2
    obtain ⟨hs, hx1⟩ := hasTEq_false_parts c x1 hx
    rw [List.cons_append, countTMarkers_cons, isTMarkerAt_cons,
      tMatchAfter_append_false x1 z hx1 hz1 hz2, Bool.and_false]
    simpa using ih hx1 z hz1 hz2

lemma digitChar_isDigit (n : ℕ) : (digitChar n).isDigit = true := by
  unfold digitChar
  split_ifs <;> rfl

lemma natToDigitsGo_digits (fuel : ℕ) :
    ∀ (n : ℕ) (acc : Str), (∀ c ∈ acc, c.isDigit = true) →
      ∀ c ∈ natToDigitsGo fuel n acc, c.isDigit = true := by
  induction fuel with
  | zero => intro n acc h; simpa [natToDigitsGo] using h
  | succ f ih =>
    intro n acc h
    rw [natToDigitsGo]
    split
    · intro c hc
      rcases List.mem_cons.mp hc with hc | hc
      · rw [hc]; exact digitChar_isDigit n
      · exact h c hc
    · refine ih (n / 10) _ ?_
      intro c hc
      rcases List.mem_cons.mp hc with hc | hc
      · rw [hc]; exact digitChar_isDigit _
      · exact h c hc

lemma natToDigits_digits (n : ℕ) : ∀ c ∈ natToDigits n, c.isDigit = true :=
  natToDigitsGo_digits (n + 1) n [] (by simp)

lemma natToDigitsGo_ne_nil (fuel : ℕ) :
    ∀ (n : ℕ) (acc : Str), acc ≠ [] → natToDigitsGo fuel n acc ≠ [] := by
  induction fuel with
  | zero => intro n acc h; simpa [natToDigitsGo] using h
  | succ f ih =>
    intro n acc h
    rw [natToDigitsGo]
    split
    · simp
    · exact ih (n / 10) _ (by simp)

lemma natToDigits_ne_nil (n : ℕ) : natToDigits n ≠ [] := by
  rw [natToDigits, natToDigitsGo]
  split
  · simp
  · exact natToDigitsGo_ne_nil n (n / 10) _ (by simp)

lemma isDigit_beq_false (c x : Char) (h : c.isDigit = true)
    (hx : x.isDigit = false) : (c == x) = false := by
  cases hb : c == x
  · rfl
  · exfalso
    have hcx : c = x := beq_iff_eq.mp hb
    rw [hcx, hx] at h
    exact Bool.noConfusion h

/-! ## Replay reference builder: the two application steps -/

lemma create_first_step (ref : Str) (t : ℚ) (h0 : 0 ≤ t)
    (hq : ref.contains '?' = true) (ht : hasTEq ref = false) :
    create_timestamp_url ref t = ref ++ ('&' :: 't' :: '=' ::
      (natToDigits (⌊t⌋).toNat ++ ['s'])) := by
  have hhash : hasHashTEq ref = false := hasHashTEq_of_no_teq ref ht
  have hnn : ¬ (⌊t⌋ < 0) := not_lt.mpr (Int.floor_nonneg.mpr h0)
  unfold create_timestamp_url
  rw [ht, hhash]
  simp only [Bool.or_self, Bool.false_eq_true, if_false, hq, if_true,
    pyInt, if_pos h0, intToStr, if_neg hnn, List.append_assoc, List.cons_append,
    List.nil_append]

lemma create_second_step (ref : Str) (t1 t2 : ℚ) (h1 : 0 ≤ t1) (h2 : 0 ≤ t2)
    (hq : ref.contains '?' = true) (ht : hasTEq ref = false) :
    create_timestamp_url (create_timestamp_url ref t1) t2 =
      (ref ++ ['s']) ++ ('&' :: 't' :: '=' ::
        (natToDigits (⌊t2⌋).toNat ++ ['s'])) := by
  have hstep1 := create_first_step ref t1 h1 hq ht
  obtain ⟨dh, dtl, hd⟩ : ∃ dh dtl, natToDigits (⌊t1⌋).toNat = dh :: dtl := by
    cases hcase : natToDigits (⌊t1⌋).toNat with
    | nil => exact absurd hcase (natToDigits_ne_nil _)
    | cons a b => exact ⟨a, b, rfl⟩
  have hdigits1 : ∀ c ∈ natToDigits (⌊t1⌋).toNat, c.isDigit = true :=
    natToDigits_digits _
  have hdh : dh.isDigit = true := hdigits1 dh (by rw [hd]; exact List.mem_cons_self _ _)
  have hdtl : ∀ c ∈ dtl, c.isDigit = true := by
    intro c hc
    exact hdigits1 c (by rw [hd]; exact List.mem_cons_of_mem _ hc)
  have hteq2 : hasTEq (create_timestamp_url ref t1) = true := by
    rw [hstep1]
    refine hasTEq_append_right ref _ ?_
    show (startsTEq _ || _) = true
    rw [Bool.or_eq_true_iff]
    right
    show (startsTEq _ || _) = true
    simp [startsTEq]
  have hstrip : stripTGo false (create_timestamp_url ref t1) = ref ++ ['s'] := by
    rw [hstep1, stripTGo_pass ref ht _ (by simp) (by simp)]
    congr 1
    rw [hd, List.cons_append, stripTGo_match '&' dh (dtl ++ ['s']) rfl hdh false,
      stripTGo_swallow dtl hdtl ['s']]
    rfl
  have hx : hasTEq (ref ++ ['s']) = false :=
    hasTEq_append_single ref 's' ht rfl
  have hstart : stripStartGo false (ref ++ ['s']) = ref ++ ['s'] :=
    stripStartGo_noop _ hx
  have hcont2 : (ref ++ ['s']).contains '?' = true := by
    rw [List.contains_eq_any_beq] at hq
    simp only [List.contains_eq_any_beq, List.any_append, hq, Bool.true_or]
  have hnn : ¬ (⌊t2⌋ < 0) := not_lt.mpr (Int.floor_nonneg.mpr h2)
  generalize hu : create_timestamp_url ref t1 = u at hteq2 hstrip ⊢
  unfold create_timestamp_url
  simp only [hteq2, Bool.true_or, if_true, hstrip, hstart, hcont2,
    pyInt, if_pos h2, intToStr, if_neg hnn, List.append_assoc, List.cons_append,
    List.nil_append]

/-- C1 as amended: for a base reference that contains `?` and no `t=`
substring, applying the builder twice yields the base (plus a residual `s`
from the stripped first marker) followed by exactly one time marker whose
value is `floor(t2)` with the seconds suffix. -/
theorem claim_C1 (ref : Str) (t1 t2 : ℚ) (h1 : 0 ≤ t1) (h2 : 0 ≤ t2)
    (hq : ref.contains '?' = true) (ht : hasTEq ref = false) :
    create_timestamp_url (create_timestamp_url ref t1) t2 =
      (ref ++ ['s']) ++ ('&' :: 't' :: '=' ::
        (natToDigits (⌊t2⌋).toNat ++ ['s'])) ∧
    countTMarkers (create_timestamp_url (create_timestamp_url ref t1) t2) = 1 := by
  have hstep2 := create_second_step ref t1 t2 h1 h2 hq ht
  refine ⟨hstep2, ?_⟩
  rw [hstep2]
  have hx : hasTEq (ref ++ ['s']) = false :=
    hasTEq_append_single ref 's' ht rfl
  rw [countTMarkers_pass (ref ++ ['s']) hx _ (by simp) (by simp)]
  obtain ⟨eh, etl, he⟩ : ∃ eh etl, natToDigits (⌊t2⌋).toNat = eh :: etl := by
    cases hcase : natToDigits (⌊t2⌋).toNat with
    | nil => exact absurd hcase (natToDigits_ne_nil _)
    | cons a b => exact ⟨a, b, rfl⟩
  have hdigits2 : ∀ c ∈ natToDigits (⌊t2⌋).toNat, c.isDigit = true :=
    natToDigits_digits _
  have heh : eh.isDigit = true := hdigits2 eh (by rw [he]; exact List.mem_cons_self _ _)
  have hetl : ∀ c ∈ etl, c.isDigit = true := by
    intro c hc
    exact hdigits2 c (by rw [he]; exact List.mem_cons_of_mem _ hc)
  rw [he, List.cons_append]
  rw [countTMarkers_cons, isTMarkerAt_cons]
  have hmark : tMatchAfter ('t' :: '=' :: eh :: (etl ++ ['s'])) = true := by
    simp [tMatchAfter, heh]
  rw [hmark]
  have hrest : countTMarkers ('t' :: '=' :: eh :: (etl ++ ['s'])) = 0 := by
    refine countTMarkers_zero _ ?_
    intro c hc
    rcases List.mem_cons.mp hc with rfl | hc
    · rfl
    rcases List.mem_cons.mp hc with rfl | hc
    · rfl
    rcases List.mem_cons.mp hc with rfl | hc
    · have h1 := isDigit_beq_false c '?' heh rfl
      have h2 := isDigit_beq_false c '&' heh rfl
      have h3 := isDigit_beq_false c '#' heh rfl
      rw [h1, h2, h3, Bool.or_false, Bool.or_false]
    rcases List.mem_append.mp hc with hc | hc
    · have hcd := hetl c hc
      have h1 := isDigit_beq_false c '?' hcd rfl
      have h2 := isDigit_beq_false c '&' hcd rfl
      have h3 := isDigit_beq_false c '#' hcd rfl
      rw [h1, h2, h3, Bool.or_false, Bool.or_false]
    · have hcs : c = 's' := by simpa using hc
      rw [hcs]
      rfl
  rw [hrest]
  rfl

/-- C1 counterexample: for a base reference with no query component (here
`"a"`), the first application appends its marker with `?`, which the strip
regexes `[&#]t=\d+` / `[&#]start=\d+` do not recognize, so the second
application leaves two time markers — the claim fails as stated for
arbitrary references. -/
theorem claim_C1_counterexample :
    create_timestamp_url (create_timestamp_url ['a'] 30) 45 =
      ['a', '?', 't', '=', '3', '0', 's', '&', 't', '=', '4', '5', 's'] ∧
    countTMarkers (create_timestamp_url (create_timestamp_url ['a'] 30) 45) = 2 ∧
    countTMarkers (create_timestamp_url (create_timestamp_url ['a'] 30) 45) ≠ 1 := by
  refine ⟨by decide, by decide, by decide⟩

/-- C1 witness at a concrete input. -/
theorem claim_C1_witness :
    create_timestamp_url (create_timestamp_url ['x', '?', 'v'] 30) 45 =
      ((['x', '?', 'v'] ++ ['s']) ++ ('&' :: 't' :: '=' ::
        (natToDigits (⌊(45 : ℚ)⌋).toNat ++ ['s']))) ∧
    countTMarkers (create_timestamp_url (create_timestamp_url ['x', '?', 'v'] 30) 45) = 1 :=
  claim_C1 ['x', '?', 'v'] 30 45 (by norm_num) (by norm_num) (by decide) (by decide)

end JpSub
